import Mathlib

/-!
Shallow embedding of `src/config_manager.py` (class `ConfigManager`) from the
PACSsimulator repository, together with proofs settling the frozen claims
about its specification.

Strings are modelled as `List Char` (`Str`).  Python dictionaries are modelled
as insertion-ordered association lists (`List (Str × α)`): assignment to an
existing key replaces the value in place, assignment to a fresh key appends at
the end, `pop`/`del` remove the entry — exactly CPython's `dict` semantics for
the operations the source uses.  The filesystem hosts file is modelled as
`Option Str` (`none` = the file does not exist).  The two concrete regular
expressions of `_parse` and the block regexes of `_parse`/`_sync_to_raw` are
implemented as deterministic matchers; determinism is justified because in
each pattern every optional/greedy element is followed by a disjoint character
class, so the regex backtracking semantics coincide with the greedy one.
-/

set_option maxRecDepth 4000

abbrev Str := List Char

/-! ### Basic character classes (Python `\s`, `[A-Za-z0-9_\-]`, `[A-Za-z0-9_\-\.]`, `[0-9]`) -/

/-- Python's `\s` on ASCII text: space, tab, newline, carriage return, vertical tab, form feed. -/
def isWs (c : Char) : Bool :=
  c = ' ' || c = '\t' || c = '\n' || c = '\r' || c = '\x0b' || c = '\x0c'

/-- Character class `[A-Za-z0-9_\-]` used for symbols and AE titles in both regexes. -/
def isNameChar (c : Char) : Bool :=
  ('A' ≤ c && c ≤ 'Z') || ('a' ≤ c && c ≤ 'z') || ('0' ≤ c && c ≤ '9') || c = '_' || c = '-'

/-- Character class `[A-Za-z0-9_\-\.]` used for hostnames in both regexes. -/
def isHostChar (c : Char) : Bool :=
  isNameChar c || c = '.'

/-- Character class `[0-9]`. -/
def isDigitC (c : Char) : Bool :=
  '0' ≤ c && c ≤ '9'

/-- ASCII lower-casing of one character, as Python `str.lower` does on ASCII input. -/
def lcChar (c : Char) : Char :=
  if 'A' ≤ c && c ≤ 'Z' then Char.ofNat (c.toNat + 32) else c

/-- Python `str.lower` on ASCII strings. -/
def lowerS (s : Str) : Str := s.map lcChar

/-! ### Generic string helpers mirroring the Python string operations used by the source -/

/-- Greedy `\s*`: drop the maximal leading whitespace run. -/
def skipWs : Str → Str
  | [] => []
  | c :: t => if isWs c then skipWs t else c :: t

/-- Match one literal character (`re` literal). -/
def chomp (c : Char) : Str → Option Str
  | [] => none
  | x :: t => if x = c then some t else none

/-- Optional literal character (`c?` in a position where `c` cannot be matched later,
so consuming greedily is equivalent to regex backtracking). -/
def optC (c : Char) : Str → Str
  | [] => []
  | x :: t => if x = c then t else x :: t

/-- Greedy one-or-more character-class match (`[..]+` followed by a disjoint class). -/
def takeWhile1 (p : Char → Bool) : Str → Option (Str × Str)
  | [] => none
  | c :: t => if p c then some (c :: t.takeWhile p, t.dropWhile p) else none

/-- Python `str.strip()`. -/
def stripS (s : Str) : Str :=
  ((s.dropWhile fun c => isWs c).reverse.dropWhile fun c => isWs c).reverse

/-- Everything after the first occurrence of `c`; Python `line.split(c, 1)[1]`. -/
def splitOnceAfter (c : Char) : Str → Str
  | [] => []
  | x :: t => if x = c then t else splitOnceAfter c t

/-- Auxiliary accumulator-based splitter for `pySplitWs` (the accumulator holds the
current token reversed). -/
def pySplitAux : Str → Str → List Str
  | [], acc => if acc = [] then [] else [acc.reverse]
  | c :: t, acc =>
    if isWs c then
      if acc = [] then pySplitAux t [] else acc.reverse :: pySplitAux t []
    else pySplitAux t (c :: acc)

/-- Python `str.split()` with no argument (also `re.split(r'\s+', line)` on a
stripped line): whitespace-run separated tokens, no empties. -/
def pySplitWs (s : Str) : List Str := pySplitAux s []

/-- Split into lines, each keeping its trailing newline (Python `for line in f`). -/
def splitKeepEnds : Str → List Str
  | [] => []
  | c :: t =>
    if c = '\n' then ['\n'] :: splitKeepEnds t
    else
      match splitKeepEnds t with
      | [] => [[c]]
      | l :: ls => (c :: l) :: ls

/-- Drop one trailing newline from a line. -/
def chopNl (l : Str) : Str :=
  if l.getLast? = some '\n' then l.dropLast else l

/-- Python `str.splitlines()` for `\n`-terminated text. -/
def splitlinesP (s : Str) : List Str := (splitKeepEnds s).map chopNl

/-- Concatenation of a list of lines (inverse of `splitKeepEnds` on well-formed input). -/
def joinAll (ls : List Str) : Str := ls.foldr (· ++ ·) []

/-- Join with newline separators, Python `'\n'.join(...)`. -/
def joinNl : List Str → Str
  | [] => []
  | [l] => l
  | l :: l' :: ls => l ++ '\n' :: joinNl (l' :: ls)

/-- Bool-valued list-of-chars prefix test. -/
def isPrefixB : Str → Str → Bool
  | [], _ => true
  | _ :: _, [] => false
  | a :: as, b :: bs => a = b && isPrefixB as bs

/-- Python substring containment `pat in s`. -/
def containsSub (pat : Str) : Str → Bool
  | [] => isPrefixB pat []
  | c :: t => isPrefixB pat (c :: t) || containsSub pat t

/-- Decimal digit character for `natChars`. -/
def digitChar : Nat → Char
  | 0 => '0' | 1 => '1' | 2 => '2' | 3 => '3' | 4 => '4'
  | 5 => '5' | 6 => '6' | 7 => '7' | 8 => '8' | _ => '9'

/-- Fueled decimal rendering of a natural number. -/
def natCharsAux : Nat → Nat → Str
  | 0, _ => []
  | fuel + 1, n => if n < 10 then [digitChar n] else natCharsAux fuel (n / 10) ++ [digitChar (n % 10)]

/-- Python `str(n)` / f-string rendering for a non-negative integer. -/
def natChars (n : Nat) : Str := natCharsAux (n + 1) n

/-- Value of one decimal digit character. -/
def digitVal (c : Char) : Nat := c.toNat - 48

/-- Python `int(...)` on a digit string (the regex guarantees `[0-9]+`). -/
def digitsToNat (s : Str) : Nat := s.foldl (fun n c => n * 10 + digitVal c) 0

/-! ### Data model (dataclasses `HostEntry` and `SCUEntry`) -/

/-- One row of the HostTable: `symbolic = (aet, hostname, port)`. -/
structure HostEntry where
  symbolic : Str
  aet : Str
  hostname : Str
  port : Nat
deriving DecidableEq

/-- One client SCU (application entity) entry. -/
structure SCUEntry where
  ae_title : Str
  hostname : Str
  ip : Str
  port : Nat
deriving DecidableEq

/-! ### Insertion-ordered association lists (CPython `dict` semantics) -/

/-- First-match lookup, `d.get(k)` / `d[k]`. -/
def alget {α : Type} (m : List (Str × α)) (k : Str) : Option α :=
  match m with
  | [] => none
  | (k', v) :: t => if k' = k then some v else alget t k

/-- `d[k] = v`: replace in place when the key exists, else append at the end. -/
def alinsert {α : Type} (m : List (Str × α)) (k : Str) (v : α) : List (Str × α) :=
  match m with
  | [] => [(k, v)]
  | (k', v') :: t => if k' = k then (k, v) :: t else (k', v') :: alinsert t k v

/-- `d.pop(k)` / `del d[k]` for a present key. -/
def alerase {α : Type} (m : List (Str × α)) (k : Str) : List (Str × α) :=
  match m with
  | [] => []
  | (k', v) :: t => if k' = k then t else (k', v) :: alerase t k

abbrev HMap := List (Str × HostEntry)
abbrev SMap := List (Str × SCUEntry)
abbrev IpMap := List (Str × Str)

/-! ### The two host-table line regexes of `_parse`

`p`  is `re.match(r'\(?\s*([A-Za-z0-9_\-]+)\s*,?\s*\)?\s*=\s*\(?\s*([A-Za-z0-9_\-]+)\s*,\s*([A-Za-z0-9_\-\.]+)\s*,\s*([0-9]+)\s*\)?', line)`
(line 55 of the source; only its success is consulted, a match causes `continue`).

`p2` is `re.match(r'([A-Za-z0-9_\-]+)\s*=\s*\(\s*([A-Za-z0-9_\-]+)\s*,\s*([A-Za-z0-9_\-\.]+)\s*,\s*([0-9]+)\s*\)', line)`
(line 60 of the source; its groups populate the `HostEntry`).

Both are prefix matches (`re.match`).  In each pattern every optional or
greedy element is succeeded by a character not belonging to the element, so
the deterministic greedy matchers below are extensionally equal to the
backtracking regex semantics. -/

/-- Prefix-match attempt of the first (fallback-check) regex `p` of `_parse`,
as a chain of the deterministic element matchers. -/
def pProbe (line : Str) : Option Unit :=
  Option.bind (takeWhile1 isNameChar (skipWs (optC '(' line))) fun x =>
  Option.bind (chomp '=' (skipWs (optC ')' (skipWs (optC ',' (skipWs x.2)))))) fun s7 =>
  Option.bind (takeWhile1 isNameChar (skipWs (optC '(' (skipWs s7)))) fun y =>
  Option.bind (chomp ',' (skipWs y.2)) fun s12 =>
  Option.bind (takeWhile1 isHostChar (skipWs s12)) fun z =>
  Option.bind (chomp ',' (skipWs z.2)) fun s14 =>
  Option.bind (takeWhile1 isDigitC (skipWs s14)) fun _ =>
  some ()

/-- Success of the first (fallback-check) regex `p` of `_parse`
(the trailing `\s*\)?` of the pattern always succeeds). -/
def pMatch (line : Str) : Bool := (pProbe line).isSome

/-- Groups of the second regex `p2` of `_parse`: symbolic name, AE title,
hostname, port digits. -/
def p2Parse (line : Str) : Option (Str × Str × Str × Str) :=
  Option.bind (takeWhile1 isNameChar line) fun x =>
  Option.bind (chomp '=' (skipWs x.2)) fun s2 =>
  Option.bind (chomp '(' (skipWs s2)) fun s3 =>
  Option.bind (takeWhile1 isNameChar (skipWs s3)) fun y =>
  Option.bind (chomp ',' (skipWs y.2)) fun s5 =>
  Option.bind (takeWhile1 isHostChar (skipWs s5)) fun z =>
  Option.bind (chomp ',' (skipWs z.2)) fun s7 =>
  Option.bind (takeWhile1 isDigitC (skipWs s7)) fun w =>
  Option.bind (chomp ')' (skipWs w.2)) fun _ =>
  some (x.1, y.1, z.1, w.1)

/-- The per-line body of the HostTable loop of `_parse` (source lines 47-66):
strip, skip empty and comment lines, require `'=' in line`, skip grouped
comma entries (`',' in rhs and '(' not in rhs`), skip lines matching `p`,
and build a `HostEntry` from the groups of `p2`. -/
def hostLineEntry (line0 : Str) : Option HostEntry :=
  let line := stripS line0
  if line = [] then none
  else if line.head? = some '#' then none
  else if line.elem '=' then
    let rhs := stripS (splitOnceAfter '=' line)
    if rhs.elem ',' && !(rhs.elem '(') then none
    else if pMatch line then none
    else
      match p2Parse line with
      | some (symb, aet, host, digits) =>
        some { symbolic := symb, aet := aet, hostname := host, port := digitsToNat digits }
      | none => none
  else none

/-! ### Block search and substitution

`re.search(r'HostTable\s+BEGIN(.*?)HostTable\s+END', raw, re.S|re.I)` and the
corresponding `re.sub` of `_sync_to_raw`: leftmost match, lazy (shortest) body,
case-insensitive keywords, `\s+` between keyword and BEGIN/END, and `.`
matching newlines (`re.S`). -/

/-- Case-insensitive literal keyword match (the keyword is given lowercase). -/
def matchCaselessKw : Str → Str → Option Str
  | [], s => some s
  | _ :: _, [] => none
  | k :: kt, c :: ct => if lcChar c = lcChar k then matchCaselessKw kt ct else none

/-- Greedy `\s+` (one or more whitespace characters, followed in all uses by a
non-whitespace letter, hence deterministic). -/
def matchWs1 : Str → Option Str
  | [] => none
  | c :: t => if isWs c then some (skipWs t) else none

/-- Match `kw\s+BEGIN` (case-insensitive) at the head of the string. -/
def matchBeginAt (kw : Str) (s : Str) : Option Str :=
  match matchCaselessKw kw s with
  | none => none
  | some r =>
    match matchWs1 r with
    | none => none
    | some r' => matchCaselessKw ('b' :: 'e' :: 'g' :: 'i' :: 'n' :: []) r'

/-- Match `kw\s+END` (case-insensitive) at the head of the string. -/
def matchEndAt (kw : Str) (s : Str) : Option Str :=
  match matchCaselessKw kw s with
  | none => none
  | some r =>
    match matchWs1 r with
    | none => none
    | some r' => matchCaselessKw ('e' :: 'n' :: 'd' :: []) r'

/-- Lazy `(.*?)kw\s+END`: the shortest body after which the end marker matches;
returns the body and the rest after the end marker. -/
def findLazyEnd (kw : Str) : Str → Option (Str × Str)
  | [] =>
    match matchEndAt kw [] with
    | some rest => some ([], rest)
    | none => none
  | c :: t =>
    match matchEndAt kw (c :: t) with
    | some rest => some ([], rest)
    | none =>
      match findLazyEnd kw t with
      | some (body, rest) => some (c :: body, rest)
      | none => none

/-- A full block match attempt at the head of the string: begin marker, lazy
body, end marker. -/
def blockProbe (kw : Str) (s : Str) : Option (Str × Str) :=
  match matchBeginAt kw s with
  | none => none
  | some r => findLazyEnd kw r

/-- Leftmost block match: `re.search` of the block pattern.  Returns the text
before the match, the lazy group (body between the markers) and the text after
the match. -/
def searchBlockFrom (kw : Str) : Str → Option (Str × Str × Str)
  | [] =>
    match blockProbe kw [] with
    | some (b, r) => some ([], b, r)
    | none => none
  | c :: t =>
    match blockProbe kw (c :: t) with
    | some (b, r) => some ([], b, r)
    | none =>
      match searchBlockFrom kw t with
      | some (p, b, r) => some (c :: p, b, r)
      | none => none

/-- `re.sub` of the block pattern: replace every non-overlapping leftmost-lazy
match by `repl`, scanning left to right (fueled; the fuel `|s| + 1` always
suffices because every match consumes at least one character). -/
def reSubBlock (kw repl : Str) : Nat → Str → Str
  | 0, s => s
  | fuel + 1, s =>
    match searchBlockFrom kw s with
    | none => s
    | some (pre, _, rest) => pre ++ repl ++ reSubBlock kw repl fuel rest

/-- Lowercase keyword of the host-table block markers. -/
def kwHost : Str := ('h' :: 'o' :: 's' :: 't' :: 't' :: 'a' :: 'b' :: 'l' :: 'e' :: [])

/-- Lowercase keyword of the AE-table block markers. -/
def kwAe : Str := ('a' :: 'e' :: 't' :: 'a' :: 'b' :: 'l' :: 'e' :: [])

/-! ### `_parse`, `_load_hosts_file`, and the `ConfigManager` state -/

/-- Hostname → IP mapping built by `_load_hosts_file` (source lines 93-105):
missing file gives an empty mapping; empty and `#` lines are skipped; the
first token is the IP, every later token a hostname; later lines overwrite. -/
def loadHostsMap (hf : Option Str) : IpMap :=
  match hf with
  | none => []
  | some content =>
    (splitlinesP content).foldl
      (fun m line =>
        let l := stripS line
        if l = [] then m
        else if l.head? = some '#' then m
        else
          match pySplitWs l with
          | ip :: h1 :: rest => (h1 :: rest).foldl (fun m' hn => alinsert m' hn ip) m
          | _ => m)
      []

/-- The HostTable body loop of `_parse`: fold `hostLineEntry` over the lines,
recording entries under their symbolic name. -/
def parseHostsBody (body : Str) : HMap :=
  (splitlinesP body).foldl
    (fun m line =>
      match hostLineEntry line with
      | some he => alinsert m he.symbolic he
      | none => m)
    []

/-- First host-table symbol that occurs as a substring of the AE line
(`for sym in self.hosts.keys(): if sym in line`). -/
def firstSymMatch (hosts : HMap) (line : Str) : Option HostEntry :=
  match hosts with
  | [] => none
  | (sym, he) :: t => if containsSub sym line then some he else firstSymMatch t line

/-- The per-line body of the AETable loop of `_parse` (source lines 71-89):
strip, skip empty and comment lines, require at least five whitespace fields,
associate via the first symbol substring, and look up the IP in the
hostname → IP mapping (empty string when absent). -/
def aeLineStep (hosts : HMap) (prevIp : IpMap) (m : SMap) (line0 : Str) : SMap :=
  let line := stripS line0
  if line = [] then m
  else if line.head? = some '#' then m
  else
    let parts := pySplitWs line
    if parts.length < 5 then m
    else
      match parts with
      | [] => m
      | aet :: _ =>
        match firstSymMatch hosts line with
        | none => m
        | some he =>
          let ip := (alget prevIp he.hostname).getD []
          alinsert m aet { ae_title := aet, hostname := he.hostname, ip := ip, port := he.port }

/-- Result of `_parse`: the two entity maps and the hosts-file mapping. -/
structure ParseOut where
  hosts : HMap
  scus : SMap
  ipMap : IpMap
deriving DecidableEq

/-- `_parse` (source lines 37-91).  `prevIp` is the hostname → IP mapping held
by the object when the AE loop runs (`self.hosts_ip`); on the very first parse
that attribute does not exist yet, but the lookup `self._ip_for_hostname` is
only reached when some host symbol matched, which never happens (see
`parseCfg_hosts_nil`), so the parse result does not depend on it
(`parseCfg_prevIp_irrelevant`). -/
def parseCfg (raw : Str) (hf : Option Str) (prevIp : IpMap) : ParseOut :=
  let hosts :=
    match searchBlockFrom kwHost raw with
    | none => []
    | some (_, body, _) => parseHostsBody body
  let scus :=
    match searchBlockFrom kwAe raw with
    | none => []
    | some (_, body, _) => (splitlinesP body).foldl (aeLineStep hosts prevIp) []
  { hosts := hosts, scus := scus, ipMap := loadHostsMap hf }

/-- The in-memory and on-disk state owned by one `ConfigManager`:
`self.raw`, `self.hosts`, `self.scus`, `self.hosts_ip`, and the content of the
hosts file on disk (`none` = file missing). -/
structure CMState where
  raw : Str
  hosts : HMap
  scus : SMap
  hostsIp : IpMap
  hostsFile : Option Str
deriving DecidableEq

/-- Errors the mutators can raise: `KeyError('AE not found')` and the
`FileNotFoundError` (an `OSError`) from opening a missing hosts file. -/
inductive CMErr where
  | notFound
  | fileNotFound
deriving DecidableEq

/-- State after `__init__`/`_load` given the configuration text and the hosts
file (the first `_parse` runs with no previous hostname → IP mapping). -/
def mkInitial (cfg : Str) (hf : Option Str) : CMState :=
  let r := parseCfg cfg hf []
  { raw := cfg, hosts := r.hosts, scus := r.scus, hostsIp := r.ipMap, hostsFile := hf }

/-! ### `_sync_to_raw` and the mutators -/

/-- One regenerated host-table line: `f"{sym} = ({he.aet}, {he.hostname}, {he.port})"`. -/
def hostLineOut (sym : Str) (he : HostEntry) : Str :=
  sym ++ (' ' :: '=' :: ' ' :: '(' :: []) ++ he.aet ++ (',' :: ' ' :: []) ++ he.hostname
    ++ (',' :: ' ' :: []) ++ natChars he.port ++ (')' :: [])

/-- One regenerated AE-table line:
`f"{aet} /var/lib/dcmtk/db/{aet} RW (500, 1gb) {sym}"` with `sym` the
lowercased AE title. -/
def aeLineOut (aet : Str) (scu : SCUEntry) : Str :=
  aet ++ (" /var/lib/dcmtk/db/".toList) ++ aet ++ (" RW (500, 1gb) ".toList)
    ++ lowerS scu.ae_title

/-- The canonical replacement text for the host-table block. -/
def canonHostBlock (hosts : HMap) : Str :=
  ("HostTable BEGIN\n".toList) ++ joinNl (hosts.map fun p => hostLineOut p.1 p.2)
    ++ ("\nHostTable END".toList)

/-- The canonical replacement text for the AE-table block. -/
def canonAeBlock (scus : SMap) : Str :=
  ("AETable BEGIN\n".toList) ++ joinNl (scus.map fun p => aeLineOut p.1 p.2)
    ++ ("\nAETable END".toList)

/-- `_sync_to_raw` (source lines 179-193): substitute both blocks in place. -/
def syncToRaw (hosts : HMap) (scus : SMap) (raw : Str) : Str :=
  let r1 := reSubBlock kwHost (canonHostBlock hosts) (raw.length + 1) raw
  reSubBlock kwAe (canonAeBlock scus) (r1.length + 1) r1

/-- The tag appended to system-managed hosts-file lines. -/
def tagStr : Str := "# DICOM SCU".toList

/-- The line appended by `add_scu`/`edit_scu`: `f"{ip} {hostname} # DICOM SCU\n"`. -/
def hostsFileLine (ip hostname : Str) : Str :=
  ip ++ (' ' :: []) ++ hostname ++ (' ' :: []) ++ tagStr ++ ('\n' :: [])

/-- `_remove_host_from_hostsfile` body (source lines 169-177): copy every line
except those that both mention the hostname and carry the tag. -/
def removeTagged (hostname content : Str) : Str :=
  joinAll ((splitKeepEnds content).filter
    fun l => !(containsSub hostname l && containsSub tagStr l))

/-- `add_scu` (source lines 117-133). -/
def addScu (st : CMState) (scu : SCUEntry) : CMState :=
  let symbol := lowerS scu.ae_title
  let ipMap := loadHostsMap st.hostsFile
  let fileAndMap :=
    if (alget ipMap scu.hostname).isNone then
      (some ((st.hostsFile.getD []) ++ hostsFileLine scu.ip scu.hostname),
       alinsert ipMap scu.hostname scu.ip)
    else (st.hostsFile, ipMap)
  let hosts :=
    if (alget st.hosts symbol).isSome then st.hosts
    else alinsert st.hosts symbol
      { symbolic := symbol, aet := scu.ae_title, hostname := scu.hostname, port := scu.port }
  let scus := alinsert st.scus scu.ae_title scu
  { raw := syncToRaw hosts scus st.raw, hosts := hosts, scus := scus,
    hostsIp := fileAndMap.2, hostsFile := fileAndMap.1 }

/-- `edit_scu` (source lines 135-151). -/
def editScu (st : CMState) (oldAe : Str) (newScu : SCUEntry) : Option CMErr × CMState :=
  if (alget st.scus oldAe).isNone then (some CMErr.notFound, st)
  else
    let scus := alinsert (alerase st.scus oldAe) newScu.ae_title newScu
    let ipMap := loadHostsMap st.hostsFile
    let fileAndMap :=
      if (alget ipMap newScu.hostname).isNone then
        (some ((st.hostsFile.getD []) ++ hostsFileLine newScu.ip newScu.hostname),
         alinsert ipMap newScu.hostname newScu.ip)
      else (st.hostsFile, ipMap)
    let sym := lowerS newScu.ae_title
    let hosts := alinsert st.hosts sym
      { symbolic := sym, aet := newScu.ae_title, hostname := newScu.hostname, port := newScu.port }
    (none,
     { raw := syncToRaw hosts scus st.raw, hosts := hosts, scus := scus,
       hostsIp := fileAndMap.2, hostsFile := fileAndMap.1 })

/-- `delete_scu` (source lines 153-167) together with
`_remove_host_from_hostsfile` (lines 169-177).  When the hosts file is missing
the `open(self.hosts_path, 'r')` raises `FileNotFoundError` after the entity
maps were already mutafed but before `_sync_to_raw` runs; the returned state
is the partially mutated in-memory state at the moment of the raise. -/
def deleteScu (st : CMState) (aeTitle : Str) : Option CMErr × CMState :=
  match alget st.scus aeTitle with
  | none => (some CMErr.notFound, st)
  | some scu =>
    let scus := alerase st.scus aeTitle
    let host := scu.hostname
    let stillUsed := scus.any fun p => decide (p.2.hostname = host)
    if stillUsed then
      (none, { st with scus := scus, raw := syncToRaw st.hosts scus st.raw })
    else
      let hosts := st.hosts.filter fun q => !decide (q.2.hostname = host)
      match st.hostsFile with
      | none => (some CMErr.fileNotFound, { st with scus := scus, hosts := hosts })
      | some content =>
        (none, { st with scus := scus, hosts := hosts,
                         hostsFile := some (removeTagged host content),
                         raw := syncToRaw hosts scus st.raw })

/-- `read_all` (source lines 110-115): the current values of both maps. -/
def readAll (st : CMState) : List HostEntry × List SCUEntry :=
  (st.hosts.map fun p => p.2, st.scus.map fun p => p.2)

/-! ### Why `_parse` records nothing

The guard regex `p` is strictly more permissive than `p2` (every mandatory
element of `p2` is optional or identical in `p`), and a `p` match causes
`continue` before `p2` is consulted, so the HostTable loop never records an
entry.  The lemmas below prove this subsumption. -/

theorem chomp_eq_some {c : Char} {s t : Str} : chomp c s = some t ↔ s = c :: t := by
  cases s with
  | nil => simp [chomp]
  | cons x xs =>
    simp only [chomp]
    by_cases hx : x = c
    · subst hx; simp
    · simp only [if_neg hx]
      constructor
      · intro h; cases h
      · intro h
        injection h with h1 _
        exact absurd h1 hx

theorem takeWhile1_head {p : Char → Bool} {s : Str} {r : Str × Str}
    (h : takeWhile1 p s = some r) :
    ∃ c t, s = c :: t ∧ p c = true := by
  cases s with
  | nil => simp [takeWhile1] at h
  | cons c t =>
    by_cases hc : p c
    · exact ⟨c, t, rfl, hc⟩
    · simp [takeWhile1, hc] at h

theorem isWs_eq_false_of_isNameChar {c : Char} (h : isNameChar c = true) : isWs c = false := by
  cases hw : isWs c with
  | false => rfl
  | true =>
    exfalso
    simp only [isWs, Bool.or_eq_true, decide_eq_true_eq] at hw
    rcases hw with ((((h1 | h1) | h1) | h1) | h1) | h1 <;> subst h1 <;>
      exact absurd h (by decide)

theorem skipWs_cons_of_not {c : Char} {t : Str} (h : isWs c = false) :
    skipWs (c :: t) = c :: t := by
  simp [skipWs, h]

theorem optC_cons_of_ne {c x : Char} {t : Str} (h : x ≠ c) : optC c (x :: t) = x :: t := by
  simp [optC, h]

theorem optC_cons_self {c : Char} {t : Str} : optC c (c :: t) = t := by
  simp [optC]

theorem pMatch_of_p2Parse {line : Str} {q : Str × Str × Str × Str}
    (h : p2Parse line = some q) : pMatch line = true := by
  unfold p2Parse at h
  rw [Option.bind_eq_some] at h
  obtain ⟨x, h1, h⟩ := h
  rw [Option.bind_eq_some] at h
  obtain ⟨s2, h2, h⟩ := h
  rw [Option.bind_eq_some] at h
  obtain ⟨s3, h3, h⟩ := h
  rw [Option.bind_eq_some] at h
  obtain ⟨y, h4, h⟩ := h
  rw [Option.bind_eq_some] at h
  obtain ⟨s5, h5, h⟩ := h
  rw [Option.bind_eq_some] at h
  obtain ⟨z, h6, h⟩ := h
  rw [Option.bind_eq_some] at h
  obtain ⟨s7, h7, h⟩ := h
  rw [Option.bind_eq_some] at h
  obtain ⟨w, h8, _⟩ := h
  -- now compute `pProbe` along the same path
  obtain ⟨c, t, hline, hc⟩ := takeWhile1_head h1
  have hnc : c ≠ '(' := fun e => by subst e; exact absurd hc (by decide)
  have e1 : optC '(' line = line := by rw [hline]; exact optC_cons_of_ne hnc
  have e2 : skipWs line = line := by
    rw [hline]; exact skipWs_cons_of_not (isWs_eq_false_of_isNameChar hc)
  have e3 : skipWs x.2 = '=' :: s2 := chomp_eq_some.mp h2
  have e4 : skipWs s2 = '(' :: s3 := chomp_eq_some.mp h3
  have o1 : optC ',' ('=' :: s2) = '=' :: s2 := optC_cons_of_ne (by decide)
  have k1 : skipWs ('=' :: s2) = '=' :: s2 := skipWs_cons_of_not (by decide)
  have o2 : optC ')' ('=' :: s2) = '=' :: s2 := optC_cons_of_ne (by decide)
  have c1 : chomp '=' ('=' :: s2) = some s2 := chomp_eq_some.mpr rfl
  unfold pMatch pProbe
  rw [e1, e2, h1, Option.some_bind, e3, o1, k1, o2, k1, c1, Option.some_bind, e4,
    optC_cons_self, h4, Option.some_bind, h5, Option.some_bind, h6, Option.some_bind,
    h7, Option.some_bind, h8, Option.some_bind]
  rfl

/-- No host-table line ever produces a `HostEntry`: the fallback check `p`
subsumes `p2` and short-circuits with `continue` (source lines 55-58). -/
theorem hostLineEntry_eq_none (line0 : Str) : hostLineEntry line0 = none := by
  simp only [hostLineEntry]
  split_ifs with h1 h2 h3 h4 h5
  · rfl
  · rfl
  · rfl
  · rfl
  · cases hq : p2Parse (stripS line0) with
    | none => rfl
    | some q => exact absurd (pMatch_of_p2Parse hq) (by simp [h5])
  · rfl

theorem parseHostsBody_eq_nil (body : Str) : parseHostsBody body = [] := by
  unfold parseHostsBody
  have key : ∀ (ls : List Str) (acc : HMap),
      ls.foldl
        (fun m line =>
          match hostLineEntry line with
          | some he => alinsert m he.symbolic he
          | none => m)
        acc = acc := by
    intro ls
    induction ls with
    | nil => intro acc; rfl
    | cons l t ih =>
      intro acc
      rw [List.foldl_cons]
      have : (match hostLineEntry l with
          | some he => alinsert acc he.symbolic he
          | none => acc) = acc := by
        rw [hostLineEntry_eq_none]
      rw [this]
      exact ih acc
  exact key _ []

theorem aeLineStep_nil (prevIp : IpMap) (m : SMap) (line0 : Str) :
    aeLineStep [] prevIp m line0 = m := by
  simp only [aeLineStep]
  split_ifs with h1 h2 h3
  · rfl
  · rfl
  · rfl
  · cases hp : pySplitWs (stripS line0) with
    | nil => rfl
    | cons aet rest => rfl

/-- The HostTable map produced by any `_parse` run is empty. -/
theorem parseCfg_hosts_nil (raw : Str) (hf : Option Str) (prevIp : IpMap) :
    (parseCfg raw hf prevIp).hosts = [] := by
  simp only [parseCfg]
  cases h : searchBlockFrom kwHost raw with
  | none => rfl
  | some x =>
    obtain ⟨p, b, r⟩ := x
    exact parseHostsBody_eq_nil b

/-- The SCU map produced by any `_parse` run is empty (the AE loop can only
associate via a HostTable symbol, and the HostTable map is empty). -/
theorem foldl_aeLineStep_nil (prevIp : IpMap) :
    ∀ (ls : List Str) (acc : SMap), ls.foldl (aeLineStep [] prevIp) acc = acc := by
  intro ls
  induction ls with
  | nil => intro acc; rfl
  | cons l t ih =>
    intro acc
    rw [List.foldl_cons, aeLineStep_nil]
    exact ih acc

theorem parseCfg_scus_nil (raw : Str) (hf : Option Str) (prevIp : IpMap) :
    (parseCfg raw hf prevIp).scus = [] := by
  simp only [parseCfg]
  cases hH : searchBlockFrom kwHost raw with
  | none =>
    cases h2 : searchBlockFrom kwAe raw with
    | none => rfl
    | some y =>
      obtain ⟨p, b, r⟩ := y
      exact foldl_aeLineStep_nil prevIp _ []
  | some x =>
    obtain ⟨p0, b0, r0⟩ := x
    dsimp only
    rw [parseHostsBody_eq_nil]
    cases h2 : searchBlockFrom kwAe raw with
    | none => rfl
    | some y =>
      obtain ⟨p, b, r⟩ := y
      exact foldl_aeLineStep_nil prevIp _ []

/-- The parse result does not depend on the hostname → IP mapping held by the
object when the AE loop runs: the only use of that attribute
(`self._ip_for_hostname`, source line 84) sits in the branch taken after a
host-symbol substring match, which never happens.  In particular the very
first `_parse` (where `self.hosts_ip` does not exist yet and the lookup would
raise `AttributeError`) never reaches that lookup. -/
theorem parseCfg_prevIp_irrelevant (raw : Str) (hf : Option Str) (p p' : IpMap) :
    parseCfg raw hf p = parseCfg raw hf p' := by
  simp only [parseCfg]
  congr 1
  cases hH : searchBlockFrom kwHost raw with
  | none =>
    cases h2 : searchBlockFrom kwAe raw with
    | none => rfl
    | some y =>
      obtain ⟨pp, b, r⟩ := y
      dsimp only
      rw [foldl_aeLineStep_nil p _ [], foldl_aeLineStep_nil p' _ []]
  | some x =>
    obtain ⟨p0, b0, r0⟩ := x
    dsimp only
    rw [parseHostsBody_eq_nil]
    cases h2 : searchBlockFrom kwAe raw with
    | none => rfl
    | some y =>
      obtain ⟨pp, b, r⟩ := y
      dsimp only
      rw [foldl_aeLineStep_nil p _ [], foldl_aeLineStep_nil p' _ []]

/-- Claim C5: for every configuration text and every hosts-file text, parsing,
serializing the unmutated entity maps back into the raw text
(`_sync_to_raw`), and reparsing yields HostEntry and ApplicationEntity maps
identical to those of the first parse.  This is proved for all configuration
texts (a superset of the claim's "containing one host-table block and one
AE-table block"); both parses in fact produce empty maps, because the
fallback regex `p` subsumes `p2` and short-circuits every host-table line
(`hostLineEntry_eq_none`), and AE association requires a host symbol. -/
theorem C5_roundTrip (cfg : Str) (hf : Option Str) (prevIp : IpMap) :
    (parseCfg (syncToRaw (parseCfg cfg hf prevIp).hosts (parseCfg cfg hf prevIp).scus cfg)
        hf (parseCfg cfg hf prevIp).ipMap).hosts = (parseCfg cfg hf prevIp).hosts
    ∧ (parseCfg (syncToRaw (parseCfg cfg hf prevIp).hosts (parseCfg cfg hf prevIp).scus cfg)
        hf (parseCfg cfg hf prevIp).ipMap).scus = (parseCfg cfg hf prevIp).scus := by
  constructor
  · rw [parseCfg_hosts_nil, parseCfg_hosts_nil]
  · rw [parseCfg_scus_nil, parseCfg_scus_nil]

/-- A configuration whose host-table block holds a line in the unsupported
comma-group shape. -/
def c9cfg : Str :=
  ("HostTable BEGIN\ngroupA, groupB = (STORESCP, host1, 104)\nHostTable END\n"
    ++ "AETable BEGIN\nAETable END\n").toList

/-- Claim C9: `parse()` is total — in this embedding `parseCfg` is a total
function, and the only operations of the source that could raise are the
`int(...)` conversion (guarded by the `[0-9]+` group) and the
`self.hosts_ip` attribute access on the first parse, which is unreachable
(third conjunct: the result never depends on that attribute).  In particular
the comma-group host-table line of `c9cfg` yields zero HostEntry records and
zero SCU records, with no error, for every hosts-file text. -/
theorem C9_parse_total (hf : Option Str) (prevIp prevIp' : IpMap) :
    (parseCfg c9cfg hf prevIp).hosts = []
    ∧ (parseCfg c9cfg hf prevIp).scus = []
    ∧ parseCfg c9cfg hf prevIp = parseCfg c9cfg hf prevIp' :=
  ⟨parseCfg_hosts_nil _ _ _, parseCfg_scus_nil _ _ _,
    parseCfg_prevIp_irrelevant _ _ _ _⟩

/-! ### Claim C1: the spec's host-table parsing example -/

/-- The configuration of the spec's C1 example. -/
def c1cfg : Str :=
  ("HostTable BEGIN\nstore1 = (STORESCP, host1, 104)\nHostTable END\n"
    ++ "AETable BEGIN\nAETable END\n").toList

/-- The SCU added in the spec's C1 example. -/
def c1scu : SCUEntry :=
  { ae_title := "NEWSCU".toList, hostname := "host2".toList,
    ip := "10.0.0.2".toList, port := 200 }

/-- The manager state after loading `c1cfg` (hosts file present and empty). -/
def c1st : CMState := mkInitial c1cfg (some [])

/-- The state after `add_scu` of the C1 example entry. -/
def c1post : CMState := addScu c1st c1scu

/-- Claim C1 (code bug): the claim says `parse()` records a HostEntry for the
line `store1 = (STORESCP, host1, 104)` and that after adding NEWSCU the
regenerated host-table block contains both the `store1` and the `newscu`
lines.  The code disagrees: the fallback regex `p` (source line 55) matches
every line the intended regex `p2` (line 60) matches, and its match causes
`continue`, so `parse()` records nothing — the comments at source lines 46
and 59 document the intent that `p2` should fire.  Consequently the
regenerated block contains only the `newscu` line and the pre-existing
`store1` row is lost.  This theorem evaluates the code at the claim's input:
the parsed maps are empty, the regenerated raw text contains the `newscu`
line but not the `store1` line. -/
theorem C1_code_divergence :
    c1st.hosts = [] ∧ c1st.scus = []
    ∧ containsSub ("newscu = (NEWSCU, host2, 200)".toList) c1post.raw = true
    ∧ containsSub ("store1 = (STORESCP, host1, 104)".toList) c1post.raw = false := by
  decide

/-! ### Association-list lemmas (CPython `dict` facts used by the claims) -/

theorem alget_alinsert_self {α : Type} (m : List (Str × α)) (k : Str) (v : α) :
    alget (alinsert m k v) k = some v := by
  induction m with
  | nil => simp [alinsert, alget]
  | cons p t ih =>
    obtain ⟨k', v'⟩ := p
    by_cases h : k' = k
    · subst h; simp [alinsert, alget]
    · simp [alinsert, alget, h, ih]

theorem alget_eq_none_of_not_mem_keys {α : Type} {m : List (Str × α)} {k : Str}
    (h : k ∉ m.map Prod.fst) : alget m k = none := by
  induction m with
  | nil => rfl
  | cons p t ih =>
    obtain ⟨k', v'⟩ := p
    simp only [List.map_cons, List.mem_cons] at h
    push_neg at h
    simp only [alget]
    rw [if_neg (fun e => h.1 e.symm), ih h.2]

theorem mem_of_mem_alerase {α : Type} {m : List (Str × α)} {k : Str} {p : Str × α}
    (h : p ∈ alerase m k) : p ∈ m := by
  induction m with
  | nil => simp [alerase] at h
  | cons q t ih =>
    obtain ⟨k', v'⟩ := q
    by_cases hk : k' = k
    · subst hk; simp only [alerase, if_pos rfl] at h; exact List.mem_cons_of_mem _ h
    · simp only [alerase, if_neg hk, List.mem_cons] at h
      rcases h with h | h
      · exact h ▸ List.mem_cons_self _ _
      · exact List.mem_cons_of_mem _ (ih h)

theorem mem_alerase_of_ne {α : Type} {m : List (Str × α)} {k : Str} {p : Str × α}
    (hm : p ∈ m) (hne : p.1 ≠ k) : p ∈ alerase m k := by
  induction m with
  | nil => simp at hm
  | cons q t ih =>
    obtain ⟨k', v'⟩ := q
    rcases List.mem_cons.mp hm with h | h
    · subst h
      simp only [alerase]
      rw [if_neg hne]
      exact List.mem_cons_self _ _
    · by_cases hk : k' = k
      · subst hk; simp only [alerase, if_pos rfl]; exact h
      · simp only [alerase, if_neg hk]
        exact List.mem_cons_of_mem _ (ih h)

theorem alget_alerase_self {α : Type} {m : List (Str × α)} {k : Str}
    (hnd : (m.map Prod.fst).Nodup) : alget (alerase m k) k = none := by
  induction m with
  | nil => rfl
  | cons q t ih =>
    obtain ⟨k', v'⟩ := q
    simp only [List.map_cons, List.nodup_cons] at hnd
    by_cases hk : k' = k
    · subst hk
      simp only [alerase, if_pos rfl]
      exact alget_eq_none_of_not_mem_keys hnd.1
    · simp only [alerase, if_neg hk, alget, if_neg hk]
      exact ih hnd.2

theorem filter_values_eq_nil {m : SMap} {k : Str}
    (hwk : ∀ p ∈ m, (p : Str × SCUEntry).2.ae_title = p.1)
    (hk : k ∉ m.map Prod.fst) :
    (m.map Prod.snd).filter (fun s => decide (s.ae_title = k)) = [] := by
  rw [List.filter_eq_nil_iff]
  intro v hv
  obtain ⟨p, hp, hpv⟩ := List.mem_map.mp hv
  have : v.ae_title = p.1 := hpv ▸ hwk p hp
  simp only [decide_eq_true_eq]
  intro e
  exact hk (List.mem_map.mpr ⟨p, hp, (this ▸ e : p.1 = k)⟩)

theorem filter_values_alinsert {m : SMap} {k : Str} {e : SCUEntry}
    (he : e.ae_title = k)
    (hwk : ∀ p ∈ m, (p : Str × SCUEntry).2.ae_title = p.1)
    (hnd : (m.map Prod.fst).Nodup) :
    ((alinsert m k e).map Prod.snd).filter (fun s => decide (s.ae_title = k)) = [e] := by
  induction m with
  | nil => simp [alinsert, List.filter, he]
  | cons q t ih =>
    obtain ⟨k', v'⟩ := q
    simp only [List.map_cons, List.nodup_cons] at hnd
    by_cases hk : k' = k
    · subst hk
      simp only [alinsert, if_pos rfl, List.map_cons, List.filter]
      rw [show decide (e.ae_title = k') = true from by simp [he]]
      rw [filter_values_eq_nil (fun p hp => hwk p (List.mem_cons_of_mem _ hp)) hnd.1]
    · simp only [alinsert, if_neg hk, List.map_cons, List.filter]
      have hv' : v'.ae_title = k' := hwk (k', v') (List.mem_cons_self _ _)
      rw [show decide (v'.ae_title = k) = false from by simp [hv', hk]]
      exact ih (fun p hp => hwk p (List.mem_cons_of_mem _ hp)) hnd.2

theorem countP_keys_zero_of_not_mem {α : Type} {t : List (Str × α)} {k : Str}
    (h : k ∉ t.map Prod.fst) :
    (t.map Prod.fst).countP (fun x => decide (x = k)) = 0 := by
  refine List.countP_eq_zero.mpr ?_
  intro x hx
  simp only [decide_eq_true_eq]
  intro e
  exact h (e ▸ hx)

theorem countP_keys_alinsert {α : Type} (m : List (Str × α)) (k : Str) (v : α)
    (hnd : (m.map Prod.fst).Nodup) :
    ((alinsert m k v).map Prod.fst).countP (fun x => decide (x = k)) = 1 := by
  induction m with
  | nil => simp [alinsert]
  | cons q t ih =>
    obtain ⟨k', v'⟩ := q
    simp only [List.map_cons, List.nodup_cons] at hnd
    by_cases hk : k' = k
    · subst hk
      rw [show alinsert ((k', v') :: t) k' v = (k', v) :: t from by simp [alinsert]]
      rw [List.map_cons, List.countP_cons, countP_keys_zero_of_not_mem hnd.1]
      simp
    · rw [show alinsert ((k', v') :: t) k v = (k', v') :: alinsert t k v from by
        simp [alinsert, hk]]
      rw [List.map_cons, List.countP_cons, ih hnd.2]
      simp [hk]

theorem countP_keys_of_alget_isSome {α : Type} {m : List (Str × α)} {k : Str}
    (hnd : (m.map Prod.fst).Nodup) (h : (alget m k).isSome) :
    (m.map Prod.fst).countP (fun x => decide (x = k)) = 1 := by
  induction m with
  | nil => simp [alget] at h
  | cons q t ih =>
    obtain ⟨k', v'⟩ := q
    simp only [List.map_cons, List.nodup_cons] at hnd
    by_cases hk : k' = k
    · subst hk
      rw [List.map_cons, List.countP_cons, countP_keys_zero_of_not_mem hnd.1]
      simp
    · simp only [alget, if_neg hk] at h
      rw [List.map_cons, List.countP_cons, ih hnd.2 h]
      simp [hk]

/-- Claim C2 (amended): after `add_scu(e)` on a well-keyed store (every SCU is
stored under its own AE title, keys duplicate-free), `read_all()` contains
exactly one ApplicationEntity whose title is `e.ae_title` and it equals `e`,
and exactly one HostEntry keyed by `e.ae_title.lower()`; that HostEntry is
created carrying `e`'s AE title, hostname and port when the key was absent,
but — contrary to the original claim — an already-existing HostEntry under
that key is left unchanged, not overwritten (`add_scu` guards the insertion
with `if symbol not in self.hosts`, source line 128). -/
theorem C2_addScu_amended (st : CMState) (e : SCUEntry)
    (hwk : ∀ p ∈ st.scus, (p : Str × SCUEntry).2.ae_title = p.1)
    (hnds : (st.scus.map Prod.fst).Nodup)
    (hndh : (st.hosts.map Prod.fst).Nodup)
    (_hfull : e.ae_title ≠ [] ∧ e.hostname ≠ [] ∧ e.ip ≠ []) :
    ((readAll (addScu st e)).2.filter fun s => decide (s.ae_title = e.ae_title)) = [e]
    ∧ (((addScu st e).hosts.map Prod.fst).countP fun x => decide (x = lowerS e.ae_title)) = 1
    ∧ (alget st.hosts (lowerS e.ae_title) = none →
        alget (addScu st e).hosts (lowerS e.ae_title)
          = some { symbolic := lowerS e.ae_title, aet := e.ae_title,
                   hostname := e.hostname, port := e.port })
    ∧ (∀ h0, alget st.hosts (lowerS e.ae_title) = some h0 →
        alget (addScu st e).hosts (lowerS e.ae_title) = some h0) := by
  have hscus : (addScu st e).scus = alinsert st.scus e.ae_title e := rfl
  have hhosts : (addScu st e).hosts
      = (if (alget st.hosts (lowerS e.ae_title)).isSome then st.hosts
         else alinsert st.hosts (lowerS e.ae_title)
           { symbolic := lowerS e.ae_title, aet := e.ae_title,
             hostname := e.hostname, port := e.port }) := rfl
  refine ⟨?_, ?_, ?_, ?_⟩
  · have hr : (readAll (addScu st e)).2 = (addScu st e).scus.map Prod.snd := rfl
    rw [hr, hscus]
    exact filter_values_alinsert rfl hwk hnds
  · rw [hhosts]
    by_cases hs : (alget st.hosts (lowerS e.ae_title)).isSome
    · rw [if_pos hs]
      exact countP_keys_of_alget_isSome hndh hs
    · rw [if_neg hs]
      exact countP_keys_alinsert _ _ _ hndh
  · intro hnone
    rw [hhosts, if_neg (by simp [hnone])]
    exact alget_alinsert_self _ _ _
  · intro h0 hsome
    rw [hhosts, if_pos (by simp [hsome])]
    exact hsome

/-- The pre-existing HostEntry of the C2 counterexample (same key `newscu`,
different contents). -/
def c2preHost : HostEntry :=
  { symbolic := "newscu".toList, aet := "OLD".toList, hostname := "oldhost".toList, port := 1 }

/-- Claim C2 counterexample state: a HostEntry already sits under key `newscu`. -/
def c2st : CMState :=
  { raw := [], hosts := [("newscu".toList, c2preHost)], scus := [],
    hostsIp := [], hostsFile := some [] }

/-- The fully-populated SCU entry added in the C2 counterexample. -/
def c2scu : SCUEntry :=
  { ae_title := "NEWSCU".toList, hostname := "host2".toList,
    ip := "10.0.0.2".toList, port := 200 }

/-- Claim C2 counterexample: when a HostEntry already exists under the key
`e.ae_title.lower()`, `add_scu(e)` does NOT overwrite it — the entry keeps
its old AE title, hostname and port, so the claim's "created or overwritten
so that it carries e's AE title, hostname, and port (even when a HostEntry
under that key already existed with different contents)" is false. -/
theorem C2_cex :
    alget (addScu c2st c2scu).hosts (lowerS c2scu.ae_title) = some c2preHost
    ∧ c2preHost.hostname ≠ c2scu.hostname
    ∧ c2preHost.aet ≠ c2scu.ae_title
    ∧ c2preHost.port ≠ c2scu.port := by
  decide

/-- A well-keyed state with no entries, for the C2 witness. -/
def c2wst : CMState :=
  { raw := [], hosts := [], scus := [], hostsIp := [], hostsFile := some [] }

/-- Witness for `C2_addScu_amended` at a concrete state. -/
theorem C2_amended_witness :
    alget (addScu c2wst c2scu).hosts (lowerS c2scu.ae_title)
      = some { symbolic := lowerS c2scu.ae_title, aet := c2scu.ae_title,
               hostname := c2scu.hostname, port := c2scu.port } :=
  (C2_addScu_amended c2wst c2scu (by decide) (by decide) (by decide)
    (by decide)).2.2.1 (by decide)

/-- Claim C6: `edit_scu` and `delete_scu` on an absent AE title fail with the
not-found error (`KeyError('AE not found')`) raised before any mutation, so
the entire state — entity maps, raw text, hostname → IP map and hosts file —
is returned unchanged. -/
theorem C6_notFound_unchanged (st : CMState) (x : Str) (n : SCUEntry)
    (h : alget st.scus x = none) :
    editScu st x n = (some CMErr.notFound, st)
    ∧ deleteScu st x = (some CMErr.notFound, st) := by
  constructor
  · simp [editScu, h]
  · simp [deleteScu, h]

/-- State for the C6 witness. -/
def c6st : CMState :=
  { raw := "HostTable BEGIN\nHostTable END".toList, hosts := [], scus := [],
    hostsIp := [], hostsFile := some [] }

/-- Entry passed to `edit_scu` in the C6 witness. -/
def c6scu : SCUEntry :=
  { ae_title := "EDITED".toList, hostname := "hx".toList, ip := "1.2.3.4".toList, port := 11 }

/-- Witness for `C6_notFound_unchanged` at a concrete state. -/
theorem C6_witness :
    editScu c6st ("GHOST".toList) c6scu = (some CMErr.notFound, c6st)
    ∧ deleteScu c6st ("GHOST".toList) = (some CMErr.notFound, c6st) :=
  C6_notFound_unchanged c6st ("GHOST".toList) c6scu (by decide)

/-! ### Line structure of `splitKeepEnds`, for the hosts-file rewrite claims -/

/-- A well-formed file line: nonempty, with a newline at most as its last
character. -/
def lineOkP (l : Str) : Prop := l ≠ [] ∧ ∀ c ∈ l.dropLast, c ≠ '\n'

/-- Every line of a list except possibly the last is newline-terminated. -/
def CABL : List Str → Prop
  | [] => True
  | [_] => True
  | l :: l' :: ls => l.getLast? = some '\n' ∧ CABL (l' :: ls)

theorem splitKE_cons_ne {c : Char} (hc : c ≠ '\n') (t : Str) :
    splitKeepEnds (c :: t)
      = (match splitKeepEnds t with
         | [] => [[c]]
         | l :: ls => (c :: l) :: ls) := by
  simp [splitKeepEnds, hc]

theorem splitKE_append : ∀ (l : Str), l ≠ [] → (∀ c ∈ l.dropLast, c ≠ '\n') →
    l.getLast? = some '\n' → ∀ r, splitKeepEnds (l ++ r) = l :: splitKeepEnds r := by
  intro l
  induction l with
  | nil => intro h; exact absurd rfl h
  | cons c l' ih =>
    intro _ hint hlast r
    cases l' with
    | nil =>
      have hc : c = '\n' := by simpa using hlast
      subst hc
      simp [splitKeepEnds]
    | cons d l'' =>
      have hc : c ≠ '\n' := by
        apply hint c
        rw [List.dropLast_cons₂]
        exact List.mem_cons_self _ _
      have hint' : ∀ x ∈ (d :: l'').dropLast, x ≠ '\n' := by
        intro x hx
        apply hint x
        rw [List.dropLast_cons₂]
        exact List.mem_cons_of_mem _ hx
      have hlast' : (d :: l'').getLast? = some '\n' := by
        rw [← List.getLast?_cons_cons]
        exact hlast
      have hrec := ih (by simp) hint' hlast' r
      show splitKeepEnds (c :: ((d :: l'') ++ r)) = (c :: d :: l'') :: splitKeepEnds r
      rw [splitKE_cons_ne hc, hrec]

theorem splitKE_single : ∀ (l : Str), l ≠ [] → (∀ c ∈ l.dropLast, c ≠ '\n') →
    splitKeepEnds l = [l] := by
  intro l
  induction l with
  | nil => intro h; exact absurd rfl h
  | cons c l' ih =>
    intro _ hint
    cases l' with
    | nil =>
      by_cases hc : c = '\n'
      · subst hc; simp [splitKeepEnds]
      · simp [splitKeepEnds, hc]
    | cons d l'' =>
      have hc : c ≠ '\n' := by
        apply hint c
        rw [List.dropLast_cons₂]
        exact List.mem_cons_self _ _
      have hint' : ∀ x ∈ (d :: l'').dropLast, x ≠ '\n' := by
        intro x hx
        apply hint x
        rw [List.dropLast_cons₂]
        exact List.mem_cons_of_mem _ hx
      have hrec := ih (by simp) hint'
      show splitKeepEnds (c :: (d :: l'')) = [c :: d :: l'']
      rw [splitKE_cons_ne hc, hrec]

theorem splitKE_joinAll : ∀ (ls : List Str), (∀ l ∈ ls, lineOkP l) → CABL ls →
    splitKeepEnds (joinAll ls) = ls := by
  intro ls
  induction ls with
  | nil => intro _ _; rfl
  | cons l t ih =>
    intro hok hc
    have hokl := hok l (List.mem_cons_self _ _)
    cases t with
    | nil =>
      show splitKeepEnds (l ++ []) = [l]
      rw [List.append_nil]
      exact splitKE_single l hokl.1 hokl.2
    | cons l' ls' =>
      show splitKeepEnds (l ++ joinAll (l' :: ls')) = l :: (l' :: ls')
      rw [splitKE_append l hokl.1 hokl.2 hc.1]
      rw [ih (fun x hx => hok x (List.mem_cons_of_mem _ hx)) hc.2]

theorem lineOkP_splitKE : ∀ (s : Str), ∀ l ∈ splitKeepEnds s, lineOkP l := by
  intro s
  induction s with
  | nil => intro l hl; simp [splitKeepEnds] at hl
  | cons c t ih =>
    intro l hl
    by_cases hc : c = '\n'
    · subst hc
      rw [show splitKeepEnds ('\n' :: t) = ['\n'] :: splitKeepEnds t from by
        simp [splitKeepEnds]] at hl
      rcases List.mem_cons.mp hl with h | h
      · subst h; exact ⟨by simp, by simp⟩
      · exact ih l h
    · simp only [splitKeepEnds, if_neg hc] at hl
      cases hs : splitKeepEnds t with
      | nil =>
        rw [hs] at hl
        simp only [List.mem_singleton] at hl
        subst hl
        exact ⟨by simp, by simp⟩
      | cons l0 ls =>
        rw [hs] at hl
        rcases List.mem_cons.mp hl with h | h
        · subst h
          have h0 : lineOkP l0 := ih l0 (hs ▸ List.mem_cons_self _ _)
          refine ⟨by simp, ?_⟩
          intro x hx
          obtain ⟨d, l1, rfl⟩ : ∃ d l1, l0 = d :: l1 := by
            cases l0 with
            | nil => exact absurd rfl h0.1
            | cons d l1 => exact ⟨d, l1, rfl⟩
          rw [List.dropLast_cons₂] at hx
          rcases List.mem_cons.mp hx with h | h
          · exact h ▸ hc
          · exact h0.2 x h
        · exact ih l (hs ▸ List.mem_cons_of_mem _ h)

theorem CABL_splitKE : ∀ (s : Str), CABL (splitKeepEnds s) := by
  intro s
  induction s with
  | nil => trivial
  | cons c t ih =>
    by_cases hc : c = '\n'
    · subst hc
      simp only [splitKeepEnds, if_pos rfl]
      cases hs : splitKeepEnds t with
      | nil => trivial
      | cons l0 ls => exact ⟨by simp, hs ▸ ih⟩
    · simp only [splitKeepEnds, if_neg hc]
      cases hs : splitKeepEnds t with
      | nil => trivial
      | cons l0 ls =>
        cases ls with
        | nil => trivial
        | cons l1 ls' =>
          have h0 : lineOkP l0 := lineOkP_splitKE t l0 (hs ▸ List.mem_cons_self _ _)
          have hc0 : CABL (l0 :: l1 :: ls') := hs ▸ ih
          refine ⟨?_, hc0.2⟩
          obtain ⟨d, l2, rfl⟩ : ∃ d l2, l0 = d :: l2 := by
            cases l0 with
            | nil => exact absurd rfl h0.1
            | cons d l2 => exact ⟨d, l2, rfl⟩
          rw [List.getLast?_cons_cons]
          exact hc0.1

theorem CABL_filter (p : Str → Bool) : ∀ (ls : List Str), CABL ls → CABL (ls.filter p) := by
  intro ls
  induction ls with
  | nil => intro h; exact h
  | cons l t ih =>
    intro h
    have hct : CABL t := by
      cases t with
      | nil => trivial
      | cons a b => exact h.2
    by_cases hp : p l
    · rw [List.filter_cons_of_pos hp]
      cases hf : t.filter p with
      | nil => trivial
      | cons a b =>
        refine ⟨?_, hf ▸ ih hct⟩
        cases t with
        | nil => simp at hf
        | cons x y => exact h.1
    · rw [List.filter_cons_of_neg (by simpa using hp)]
      exact ih hct

/-- The hosts-file rewrite is, line-for-line, the filter that drops exactly
the lines both mentioning the hostname and carrying the tag. -/
theorem splitKE_removeTagged (hostname content : Str) :
    splitKeepEnds (removeTagged hostname content)
      = (splitKeepEnds content).filter
          (fun l => !(containsSub hostname l && containsSub tagStr l)) := by
  unfold removeTagged
  apply splitKE_joinAll
  · intro l hl
    exact lineOkP_splitKE content l (List.mem_of_mem_filter hl)
  · exact CABL_filter _ _ (CABL_splitKE content)

/-- The hosts-file content of the spec's C7 example. -/
def exC7 : Str := "10.0.0.5 pacs1 # DICOM SCU\n10.0.0.9 legacyhost\n".toList

/-- Claim C7: the tagged-host removal keeps exactly the lines that do not both
mention the hostname (substring test, Python `in`) and carry the `# DICOM SCU`
tag; untagged lines survive even when they contain the hostname text.  The
first conjunct characterises the rewrite line-for-line for every content and
hostname; the second and third check the spec's two concrete examples. -/
theorem C7_removeTagged (content h : Str) :
    splitKeepEnds (removeTagged h content)
      = (splitKeepEnds content).filter (fun l => !(containsSub h l && containsSub tagStr l))
    ∧ removeTagged ("pacs1".toList) exC7 = "10.0.0.9 legacyhost\n".toList
    ∧ removeTagged ("legacyhost".toList) exC7 = exC7 :=
  ⟨splitKE_removeTagged h content, by decide, by decide⟩

/-- Claim C3: `delete_scu(t)` on a present title removes the ApplicationEntity
(and only it); when no remaining entity references the deleted entry's
hostname it removes every HostEntry whose hostname matches and rewrites the
hosts file keeping exactly the lines that do not both mention the hostname
and carry the tag; when some remaining entity shares the hostname, the
HostEntry rows and the hosts file are left intact. -/
theorem C3_deleteScu (st : CMState) (t : Str) (scu : SCUEntry) (content : Str)
    (hget : alget st.scus t = some scu)
    (hfile : st.hostsFile = some content)
    (hnds : (st.scus.map Prod.fst).Nodup) :
    (deleteScu st t).1 = none
    ∧ alget (deleteScu st t).2.scus t = none
    ∧ (∀ p ∈ st.scus, p.1 ≠ t → p ∈ (deleteScu st t).2.scus)
    ∧ (((alerase st.scus t).any fun p => decide (p.2.hostname = scu.hostname)) = false →
        (∀ q ∈ (deleteScu st t).2.hosts, q.2.hostname ≠ scu.hostname)
        ∧ (∀ q ∈ st.hosts, q.2.hostname ≠ scu.hostname → q ∈ (deleteScu st t).2.hosts)
        ∧ (deleteScu st t).2.hostsFile = some (removeTagged scu.hostname content)
        ∧ splitKeepEnds (removeTagged scu.hostname content)
            = (splitKeepEnds content).filter
                (fun l => !(containsSub scu.hostname l && containsSub tagStr l)))
    ∧ (((alerase st.scus t).any fun p => decide (p.2.hostname = scu.hostname)) = true →
        (deleteScu st t).2.hosts = st.hosts
        ∧ (deleteScu st t).2.hostsFile = st.hostsFile) := by
  by_cases hu : ((alerase st.scus t).any fun p => decide (p.2.hostname = scu.hostname)) = true
  · have heq : deleteScu st t
        = (none, { st with scus := alerase st.scus t,
                           raw := syncToRaw st.hosts (alerase st.scus t) st.raw }) := by
      unfold deleteScu
      rw [hget]
      dsimp only
      rw [if_pos hu]
    rw [heq]
    refine ⟨rfl, alget_alerase_self hnds, ?_, ?_, ?_⟩
    · intro p hp hne
      exact mem_alerase_of_ne hp hne
    · intro hfalse
      rw [hu] at hfalse
      cases hfalse
    · intro _
      exact ⟨rfl, rfl⟩
  · have hu' : ((alerase st.scus t).any fun p => decide (p.2.hostname = scu.hostname)) = false :=
      Bool.eq_false_iff.mpr hu
    have heq : deleteScu st t
        = (none, { st with
            scus := alerase st.scus t,
            hosts := st.hosts.filter fun q => !decide (q.2.hostname = scu.hostname),
            hostsFile := some (removeTagged scu.hostname content),
            raw := syncToRaw
              (st.hosts.filter fun q => !decide (q.2.hostname = scu.hostname))
              (alerase st.scus t) st.raw }) := by
      unfold deleteScu
      rw [hget]
      dsimp only
      rw [if_neg hu, hfile]
    rw [heq]
    refine ⟨rfl, alget_alerase_self hnds, ?_, ?_, ?_⟩
    · intro p hp hne
      exact mem_alerase_of_ne hp hne
    · intro _
      refine ⟨?_, ?_, rfl, splitKE_removeTagged _ _⟩
      · intro q hq
        have := List.of_mem_filter hq
        simpa using this
      · intro q hq hne
        exact List.mem_filter.mpr ⟨hq, by simpa using hne⟩
    · intro htrue
      rw [htrue] at hu'
      cases hu'

/-- Hosts-file content for the C3 witness. -/
def c3content : Str := "9.9.9.9 h1 # DICOM SCU\n10.0.0.9 legacyhost\n".toList

/-- The SCU entry deleted in the C3 witness. -/
def c3scu : SCUEntry :=
  { ae_title := "A".toList, hostname := "h1".toList, ip := "9.9.9.9".toList, port := 104 }

/-- State for the C3 witness: one SCU, its host row, a tagged hosts-file line. -/
def c3st : CMState :=
  { raw := "HostTable BEGIN\na = (A, h1, 104)\nHostTable END\nAETable BEGIN\nAETable END".toList,
    hosts := [("a".toList,
      { symbolic := "a".toList, aet := "A".toList, hostname := "h1".toList, port := 104 })],
    scus := [("A".toList, c3scu)],
    hostsIp := [], hostsFile := some c3content }

/-- Witness for `C3_deleteScu` at a concrete state (last referencing entity:
the tagged line is dropped, the untagged one survives). -/
theorem C3_witness :
    (deleteScu c3st ("A".toList)).1 = none
    ∧ (deleteScu c3st ("A".toList)).2.hostsFile
        = some (removeTagged ("h1".toList) c3content) :=
  ⟨(C3_deleteScu c3st ("A".toList) c3scu c3content (by decide) (by decide) (by decide)).1,
   ((C3_deleteScu c3st ("A".toList) c3scu c3content (by decide) (by decide)
      (by decide)).2.2.2.1 (by decide)).2.2.1⟩

/-- Claim C10: when the hosts file does not exist, `delete_scu(t)` on the last
ApplicationEntity referencing `t`'s hostname raises the uncaught
`FileNotFoundError` (an `OSError`) from `open(self.hosts_path, 'r')` inside
`_remove_host_from_hostsfile`, and it does so after `self.scus.pop` and the
HostTable row removal have already mutated the in-memory maps but before
`_sync_to_raw` runs: the returned state carries the popped SCU map and the
filtered host map while `raw`, `hostsIp` and the missing file are untouched —
a partial mutation, not a rollback. -/
theorem C10_delete_missing_hostsfile (st : CMState) (t : Str) (scu : SCUEntry)
    (hget : alget st.scus t = some scu)
    (hfile : st.hostsFile = none)
    (hlast : ((alerase st.scus t).any fun p => decide (p.2.hostname = scu.hostname)) = false) :
    deleteScu st t
      = (some CMErr.fileNotFound,
         { st with scus := alerase st.scus t,
                   hosts := st.hosts.filter fun q => !decide (q.2.hostname = scu.hostname) }) := by
  unfold deleteScu
  rw [hget]
  dsimp only
  rw [if_neg (by rw [hlast]; exact Bool.false_ne_true), hfile]

/-- The SCU entry deleted in the C10 witness. -/
def c10scu : SCUEntry :=
  { ae_title := "A".toList, hostname := "h1".toList, ip := "9.9.9.9".toList, port := 104 }

/-- State for the C10 witness: one SCU, its host row, missing hosts file. -/
def c10st : CMState :=
  { raw := "HostTable BEGIN\na = (A, h1, 104)\nHostTable END\nAETable BEGIN\nAETable END".toList,
    hosts := [("a".toList,
      { symbolic := "a".toList, aet := "A".toList, hostname := "h1".toList, port := 104 })],
    scus := [("A".toList, c10scu)],
    hostsIp := [], hostsFile := none }

/-- Witness for `C10_delete_missing_hostsfile` at a concrete state. -/
theorem C10_witness :
    deleteScu c10st ("A".toList)
      = (some CMErr.fileNotFound,
         { c10st with scus := alerase c10st.scus ("A".toList),
                      hosts := c10st.hosts.filter
                        fun q => !decide (q.2.hostname = c10scu.hostname) }) :=
  C10_delete_missing_hostsfile c10st ("A".toList) c10scu (by decide) rfl (by decide)

/-- After `delete_scu` of a present title, the HostTable map is either left
unchanged (hostname still referenced) or filtered by the deleted entry's
hostname — in every branch, including the missing-hosts-file error branch. -/
theorem deleteScu_hosts_char (st : CMState) (t : Str) (scu : SCUEntry)
    (hget : alget st.scus t = some scu) :
    (deleteScu st t).2.hosts = st.hosts
    ∨ (deleteScu st t).2.hosts
        = st.hosts.filter fun q => !decide (q.2.hostname = scu.hostname) := by
  unfold deleteScu
  rw [hget]
  dsimp only
  by_cases hu : ((alerase st.scus t).any fun p => decide (p.2.hostname = scu.hostname)) = true
  · rw [if_pos hu]
    exact Or.inl rfl
  · rw [if_neg hu]
    cases st.hostsFile with
    | none => exact Or.inr rfl
    | some content => exact Or.inr rfl

/-- Claim C4 (amended): the mutators do NOT keep an ApplicationEntity and its
HostEntry in lock-step; what holds is per-operation: `add_scu(e)` guarantees
some HostEntry exists under key `e.ae_title.lower()` — freshly created with
`e`'s data when the key was absent, but left unchanged (possibly stale) when
an entry already sat under that key; `edit_scu` overwrites the entry under
the new title's key with the new data (leaving any entry under the old key
behind); `delete_scu` never creates pairings — it only keeps or removes
HostEntry rows, removing exactly by hostname match — so a HostEntry can
outlive its ApplicationEntity (shared hostnames, renames), refuting the
created/updated/deleted-together invariant (see `C4_cex`). -/
theorem C4_pairing_amended (st : CMState) (e : SCUEntry) (old : Str) (new : SCUEntry)
    (t : Str) :
    (alget (addScu st e).hosts (lowerS e.ae_title)).isSome = true
    ∧ (alget st.hosts (lowerS e.ae_title) = none →
        alget (addScu st e).hosts (lowerS e.ae_title)
          = some { symbolic := lowerS e.ae_title, aet := e.ae_title,
                   hostname := e.hostname, port := e.port })
    ∧ (∀ h0, alget st.hosts (lowerS e.ae_title) = some h0 →
        alget (addScu st e).hosts (lowerS e.ae_title) = some h0)
    ∧ ((alget st.scus old).isSome = true →
        alget (editScu st old new).2.hosts (lowerS new.ae_title)
          = some { symbolic := lowerS new.ae_title, aet := new.ae_title,
                   hostname := new.hostname, port := new.port })
    ∧ (∀ scu, alget st.scus t = some scu →
        (∀ q ∈ (deleteScu st t).2.hosts, q ∈ st.hosts)
        ∧ (∀ q ∈ st.hosts, q.2.hostname ≠ scu.hostname → q ∈ (deleteScu st t).2.hosts)) := by
  have hhosts : (addScu st e).hosts
      = (if (alget st.hosts (lowerS e.ae_title)).isSome then st.hosts
         else alinsert st.hosts (lowerS e.ae_title)
           { symbolic := lowerS e.ae_title, aet := e.ae_title,
             hostname := e.hostname, port := e.port }) := rfl
  refine ⟨?_, ?_, ?_, ?_, ?_⟩
  · rw [hhosts]
    by_cases hs : (alget st.hosts (lowerS e.ae_title)).isSome
    · rw [if_pos hs]; exact hs
    · rw [if_neg hs, alget_alinsert_self]; rfl
  · intro hnone
    rw [hhosts, if_neg (by simp [hnone])]
    exact alget_alinsert_self _ _ _
  · intro h0 hsome
    rw [hhosts, if_pos (by simp [hsome])]
    exact hsome
  · intro hold
    have hnn : ¬(alget st.scus old).isNone = true := by
      simp only [Option.isNone_iff_eq_none]
      intro hc
      rw [hc] at hold
      cases hold
    have heq : (editScu st old new).2.hosts
        = alinsert st.hosts (lowerS new.ae_title)
            { symbolic := lowerS new.ae_title, aet := new.ae_title,
              hostname := new.hostname, port := new.port } := by
      unfold editScu
      rw [if_neg hnn]
    rw [heq]
    exact alget_alinsert_self _ _ _
  · intro scu hget
    rcases deleteScu_hosts_char st t scu hget with h | h
    · rw [h]
      exact ⟨fun q hq => hq, fun q hq _ => hq⟩
    · rw [h]
      constructor
      · intro q hq
        exact List.mem_of_mem_filter hq
      · intro q hq hne
        exact List.mem_filter.mpr ⟨hq, by simpa using hne⟩

/-- Configuration for the C4 counterexample run. -/
def c4cfg : Str := "HostTable BEGIN\nHostTable END\nAETable BEGIN\nAETable END\n".toList

/-- First SCU of the C4 counterexample (hostname `h1`). -/
def c4scuA : SCUEntry :=
  { ae_title := "A".toList, hostname := "h1".toList, ip := "1.1.1.1".toList, port := 1 }

/-- Second SCU of the C4 counterexample (same hostname `h1`). -/
def c4scuB : SCUEntry :=
  { ae_title := "B".toList, hostname := "h1".toList, ip := "1.1.1.1".toList, port := 2 }

/-- Freshly loaded state of the C4 counterexample. -/
def c4st0 : CMState := mkInitial c4cfg (some [])

/-- State after adding A. -/
def c4st1 : CMState := addScu c4st0 c4scuA

/-- State after adding B (reachable state on which the invariant still holds). -/
def c4st2 : CMState := addScu c4st1 c4scuB

/-- State after deleting A (the invariant breaks here). -/
def c4st3 : CMState := (deleteScu c4st2 ("A".toList)).2

/-- The claimed pairing invariant, decidably: every SCU has a HostEntry under
its lowercased title carrying its hostname and port, and every HostEntry is
paired with some SCU. -/
def pairedInvB (st : CMState) : Bool :=
  (st.scus.all fun p => st.hosts.any fun q =>
    decide (q.1 = lowerS p.2.ae_title) && decide (q.2.hostname = p.2.hostname)
      && decide (q.2.port = p.2.port))
  && (st.hosts.all fun q => st.scus.any fun p => decide (lowerS p.2.ae_title = q.1))

/-- Claim C4 counterexample: on the reachable state `c4st2` (load, add A at
host h1, add B at host h1) the pairing invariant holds, and `delete_scu("A")`
breaks it — B still references h1, so the HostEntry `a` survives and outlives
its ApplicationEntity, contradicting "no paired HostEntry outlives its
ApplicationEntity". -/
theorem C4_cex : pairedInvB c4st2 = true ∧ pairedInvB c4st3 = false := by
  decide

/-- Witness for `C4_pairing_amended` at a concrete state. -/
theorem C4_witness :
    alget (addScu c4st0 c4scuA).hosts (lowerS c4scuA.ae_title)
      = some { symbolic := lowerS c4scuA.ae_title, aet := c4scuA.ae_title,
               hostname := c4scuA.hostname, port := c4scuA.port } :=
  (C4_pairing_amended c4st0 c4scuA ("X".toList) c4scuA ("X".toList)).2.1 (by decide)

/-! ### Behaviour of the leftmost-lazy block search, for the frame claim -/

theorem blockProbe_none {kw s : Str} (h : matchBeginAt kw s = none) :
    blockProbe kw s = none := by
  simp [blockProbe, h]

theorem blockProbe_some {kw s u body rest : Str} (hb : matchBeginAt kw s = some u)
    (hf : findLazyEnd kw u = some (body, rest)) : blockProbe kw s = some (body, rest) := by
  simp [blockProbe, hb, hf]

theorem findLazyEnd_found (kw : Str) : ∀ (body u rest : Str),
    (∀ i, i < body.length → matchEndAt kw ((body ++ u).drop i) = none) →
    matchEndAt kw u = some rest →
    findLazyEnd kw (body ++ u) = some (body, rest) := by
  intro body
  induction body with
  | nil =>
    intro u rest _ hend
    cases u with
    | nil => simp [findLazyEnd, hend]
    | cons c t => simp [findLazyEnd, hend]
  | cons c body' ih =>
    intro u rest hin hend
    have h0 : matchEndAt kw (c :: (body' ++ u)) = none := by
      simpa using hin 0 (by simp)
    have hin' : ∀ i, i < body'.length → matchEndAt kw ((body' ++ u).drop i) = none := by
      intro i hi
      simpa using hin (i + 1) (by simpa using Nat.succ_lt_succ hi)
    have hr := ih u rest hin' hend
    simp [findLazyEnd, h0, hr]

theorem searchFrom_found (kw : Str) : ∀ (pre s body rest : Str),
    (∀ i, i < pre.length → blockProbe kw ((pre ++ s).drop i) = none) →
    blockProbe kw s = some (body, rest) →
    searchBlockFrom kw (pre ++ s) = some (pre, body, rest) := by
  intro pre
  induction pre with
  | nil =>
    intro s body rest _ hs
    cases s with
    | nil => simp [searchBlockFrom, hs]
    | cons c t => simp [searchBlockFrom, hs]
  | cons c pre' ih =>
    intro s body rest hpre hs
    have h0 : blockProbe kw (c :: (pre' ++ s)) = none := by
      simpa using hpre 0 (by simp)
    have hpre' : ∀ i, i < pre'.length → blockProbe kw ((pre' ++ s).drop i) = none := by
      intro i hi
      simpa using hpre (i + 1) (by simpa using Nat.succ_lt_succ hi)
    have hr := ih s body rest hpre' hs
    simp [searchBlockFrom, h0, hr]

theorem searchFrom_none (kw : Str) (hnil : blockProbe kw [] = none) :
    ∀ (s : Str), (∀ i, i < s.length → blockProbe kw (s.drop i) = none) →
    searchBlockFrom kw s = none := by
  intro s
  induction s with
  | nil => intro _; simp [searchBlockFrom, hnil]
  | cons c t ih =>
    intro h
    have h0 : blockProbe kw (c :: t) = none := by simpa using h 0 (by simp)
    have ht := ih fun i hi => by simpa using h (i + 1) (by simpa using Nat.succ_lt_succ hi)
    simp [searchBlockFrom, h0, ht]

/-- One substitution step of `re.sub`: when the text holds exactly one match,
the result is prefix ++ replacement ++ suffix. -/
theorem reSubBlock_one (kw repl raw pre body rest : Str)
    (h1 : searchBlockFrom kw raw = some (pre, body, rest))
    (h2 : searchBlockFrom kw rest = none) (fuel : Nat) :
    reSubBlock kw repl (fuel + 1) raw = pre ++ repl ++ rest := by
  unfold reSubBlock
  rw [h1]
  dsimp only
  have hrest : reSubBlock kw repl fuel rest = rest := by
    cases fuel with
    | zero => rfl
    | succ f =>
      unfold reSubBlock
      rw [h2]
  rw [hrest]

/-- Claim C8 (amended): regenerating the raw text substitutes the two blocks
in place — all text before, between and after the two matched blocks (`p1`,
`m2`, `t2`) is preserved verbatim — but the block markers are rewritten in
the canonical spelling `HostTable BEGIN`/`HostTable END` and
`AETable BEGIN`/`AETable END` (the original marker casing and spacing is NOT
preserved, see `C8_cex`).  The hypotheses say the text decomposes as
`p1 ++ s1` with `s1` starting at the host block (begin marker consumed by
`hA2`, lazy body `body1`, end marker consumed by `hA5`), no host-marker
occurrence elsewhere (`hA1`, `hA4`, `hA6`), and symmetrically for the AE
block inside the remainder `t1 = m2 ++ s2` (`hB*`, stated over the text after
the first substitution). -/
theorem C8_sync_frame (hosts : HMap) (scus : SMap)
    (p1 s1 u1 body1 u2 t1 m2 s2 u3 body2 u4 t2 : Str)
    (hA1 : ∀ i, i < p1.length → matchBeginAt kwHost ((p1 ++ s1).drop i) = none)
    (hA2 : matchBeginAt kwHost s1 = some u1)
    (hA3 : u1 = body1 ++ u2)
    (hA4 : ∀ i, i < body1.length → matchEndAt kwHost (u1.drop i) = none)
    (hA5 : matchEndAt kwHost u2 = some t1)
    (hA6 : ∀ i, i < t1.length → matchBeginAt kwHost (t1.drop i) = none)
    (hB0 : t1 = m2 ++ s2)
    (hB1 : ∀ i, i < (p1 ++ canonHostBlock hosts ++ m2).length →
        matchBeginAt kwAe (((p1 ++ canonHostBlock hosts ++ m2) ++ s2).drop i) = none)
    (hB2 : matchBeginAt kwAe s2 = some u3)
    (hB3 : u3 = body2 ++ u4)
    (hB4 : ∀ i, i < body2.length → matchEndAt kwAe (u3.drop i) = none)
    (hB5 : matchEndAt kwAe u4 = some t2)
    (hB6 : ∀ i, i < t2.length → matchBeginAt kwAe (t2.drop i) = none) :
    syncToRaw hosts scus (p1 ++ s1)
      = p1 ++ canonHostBlock hosts ++ m2 ++ canonAeBlock scus ++ t2 := by
  have hprobe1 : blockProbe kwHost s1 = some (body1, t1) := by
    apply blockProbe_some hA2
    rw [hA3]
    exact findLazyEnd_found kwHost body1 u2 t1 (by rw [← hA3]; exact hA4) hA5
  have hs1 : searchBlockFrom kwHost (p1 ++ s1) = some (p1, body1, t1) :=
    searchFrom_found kwHost p1 s1 body1 t1 (fun i hi => blockProbe_none (hA1 i hi)) hprobe1
  have hn1 : searchBlockFrom kwHost t1 = none :=
    searchFrom_none kwHost rfl t1 fun i hi => blockProbe_none (hA6 i hi)
  have hr1 : reSubBlock kwHost (canonHostBlock hosts) ((p1 ++ s1).length + 1) (p1 ++ s1)
      = p1 ++ canonHostBlock hosts ++ t1 :=
    reSubBlock_one kwHost (canonHostBlock hosts) (p1 ++ s1) p1 body1 t1 hs1 hn1 _
  have hassoc : p1 ++ canonHostBlock hosts ++ t1
      = (p1 ++ canonHostBlock hosts ++ m2) ++ s2 := by
    rw [hB0]
    simp [List.append_assoc]
  have hprobe2 : blockProbe kwAe s2 = some (body2, t2) := by
    apply blockProbe_some hB2
    rw [hB3]
    exact findLazyEnd_found kwAe body2 u4 t2 (by rw [← hB3]; exact hB4) hB5
  have hs2 : searchBlockFrom kwAe ((p1 ++ canonHostBlock hosts ++ m2) ++ s2)
      = some (p1 ++ canonHostBlock hosts ++ m2, body2, t2) :=
    searchFrom_found kwAe _ s2 body2 t2 (fun i hi => blockProbe_none (hB1 i hi)) hprobe2
  have hn2 : searchBlockFrom kwAe t2 = none :=
    searchFrom_none kwAe rfl t2 fun i hi => blockProbe_none (hB6 i hi)
  simp only [syncToRaw]
  rw [hr1, hassoc]
  rw [reSubBlock_one kwAe (canonAeBlock scus) _ _ body2 t2 hs2 hn2 _]

/-- Witness pieces for `C8_sync_frame`: a concrete configuration text
decomposed around its two blocks. -/
def c8p1 : Str := "# pre\n".toList

/-- Body of the host block in the C8 witness. -/
def c8body1 : Str := "\nold\n".toList

/-- Text between the two blocks in the C8 witness. -/
def c8m2 : Str := "\nmid\n".toList

/-- Body of the AE block in the C8 witness. -/
def c8body2 : Str := "\nz\n".toList

/-- Text after the AE block in the C8 witness. -/
def c8t2 : Str := "\ntail".toList

/-- Suffix of the C8 witness text starting at the AE end marker. -/
def c8u4 : Str := "AETable END".toList ++ c8t2

/-- Suffix starting after the AE begin marker. -/
def c8u3 : Str := c8body2 ++ c8u4

/-- Suffix starting at the AE begin marker. -/
def c8s2 : Str := "AETable BEGIN".toList ++ c8u3

/-- Suffix starting after the host block. -/
def c8t1 : Str := c8m2 ++ c8s2

/-- Suffix starting at the host end marker. -/
def c8u2 : Str := "HostTable END".toList ++ c8t1

/-- Suffix starting after the host begin marker. -/
def c8u1 : Str := c8body1 ++ c8u2

/-- Suffix starting at the host begin marker. -/
def c8s1 : Str := "HostTable BEGIN".toList ++ c8u1

/-- Host map of the C8 witness state. -/
def c8hosts : HMap :=
  [("a".toList, { symbolic := "a".toList, aet := "A".toList, hostname := "h".toList, port := 9 })]

/-- SCU map of the C8 witness state. -/
def c8scus : SMap :=
  [("A".toList,
    { ae_title := "A".toList, hostname := "h".toList, ip := "1.2.3.4".toList, port := 9 })]

/-- Witness for `C8_sync_frame` at a concrete decomposition. -/
theorem C8_witness :
    syncToRaw c8hosts c8scus (c8p1 ++ c8s1)
      = c8p1 ++ canonHostBlock c8hosts ++ c8m2 ++ canonAeBlock c8scus ++ c8t2 :=
  C8_sync_frame c8hosts c8scus c8p1 c8s1 c8u1 c8body1 c8u2 c8t1 c8m2 c8s2 c8u3 c8body2 c8u4 c8t2
    (by decide) (by decide) (by decide) (by decide) (by decide) (by decide) (by decide)
    (by decide) (by decide) (by decide) (by decide) (by decide) (by decide)

/-- A configuration whose block markers are spelled non-canonically (the
regexes are case-insensitive, so they still match). -/
def c8cexRaw : Str :=
  ("hosttable beGin\nx = (A, h, 1)\nhosttable end\naetable begin\ny\naetable end").toList

/-- Manager state loaded from `c8cexRaw`. -/
def c8st : CMState := mkInitial c8cexRaw (some [])

/-- The SCU added in the C8 counterexample run. -/
def c8scu : SCUEntry :=
  { ae_title := "NEW".toList, hostname := "hh".toList, ip := "2.2.2.2".toList, port := 7 }

/-- State after `add_scu` regenerates the raw text. -/
def c8post : CMState := addScu c8st c8scu

/-- Claim C8 counterexample: the claim says the BEGIN/END marker text itself
is preserved by the regeneration; but after `add_scu` rewrites the blocks,
the original marker spelling `hosttable beGin` is gone from the raw text —
the markers are re-emitted in canonical form. -/
theorem C8_cex :
    containsSub ("hosttable beGin".toList) c8st.raw = true
    ∧ containsSub ("hosttable beGin".toList) c8post.raw = false := by
  decide
